import Mathlib

/-
Verification of the voice rendering core of the JS80P synthesizer.

The wavetable lookup/interpolation engine (src/synth/wavetable.cpp), the
Inaccuracy generator and the voice lifecycle state machine (src/voice.cpp)
are embedded shallowly: doubles become rationals, in-place mutation becomes
explicit state passing, and the DSP sub-objects a lifecycle call schedules
events on are abstracted into a type parameter.
-/

namespace JS80P



/-- Wavetable size. Modelled from the spec: the table size is a power of
two (the spec gives 1024 as the representative value); the constant itself
is declared in a header that is not among the sources. -/
def SIZE : ℕ := 1024

/-- Bitmask for wrapping table indices, `SIZE - 1` as in the source. -/
def MASK : ℕ := SIZE - 1

/-- The table size as a rational, mirroring `SIZE_FLOAT`. -/
def SIZE_FLOAT : ℚ := (SIZE : ℚ)

/-- Reciprocal of the table size, mirroring `SIZE_INV`. -/
def SIZE_INV : ℚ := 1 / SIZE_FLOAT

/-- Interpolation limit scale. Modelled from the spec: the interpolation
limit is the Nyquist frequency times a fixed fraction; the exact fraction
lives in a header outside the sources, and no claim depends on its value. -/
def INTERPOLATION_LIMIT_SCALE : ℚ := 1 / 2

/-- Truncation toward zero of a rational: the effect of the C++
`(Integer)` cast applied to a double value. -/
def truncQ (q : ℚ) : ℤ := if 0 ≤ q then ⌊q⌋ else ⌈q⌉

/-- Per-oscillator lookup state (`WavetableState` in wavetable.hpp), with
the two-element `table_indices` and `table_weights` arrays spelled out as
pairs of fields. -/
structure WavetableState where
  sample_index : ℚ
  scale : ℚ
  nyquist_frequency : ℚ
  interpolation_limit : ℚ
  needs_table_interpolation : Bool
  table_index_0 : ℤ
  table_index_1 : ℤ
  table_weight_0 : ℚ
  table_weight_1 : ℚ
deriving DecidableEq

/-- A wavetable: `partials` band-limited tables of `SIZE` samples each.
The sample storage is a total function; all accesses made by the embedded
operations stay within `[0, partials) × [0, SIZE)`. -/
structure Wavetable where
  partials : ℤ
  samples : ℤ → ℤ → ℚ

/-- Wavetable::reset_state. -/
def reset_state (state : WavetableState) (sampling_period : ℚ)
    (nyquist_frequency : ℚ) (frequency : ℚ) (start_time_offset : ℚ) :
    WavetableState :=
  { state with
    sample_index := SIZE_FLOAT * start_time_offset * frequency
    scale := SIZE_FLOAT * sampling_period
    nyquist_frequency := nyquist_frequency
    interpolation_limit := nyquist_frequency * INTERPOLATION_LIMIT_SCALE }

/-- Wavetable::wrap_around: floor-based reduction of a real table index
into `[0, SIZE)`. -/
def wrap_around (index : ℚ) : ℚ :=
  index - (⌊index * SIZE_INV⌋ : ℚ) * SIZE_FLOAT

/-- Wavetable::interpolate_sample_linear: 2-point linear interpolation,
blending two tables when `needs_table_interpolation` is set. -/
def interpolate_sample_linear (wt : Wavetable) (state : WavetableState)
    (sample_index : ℚ) : ℚ :=
  let sample_2_weight : ℚ := sample_index - (⌊sample_index⌋ : ℚ)
  let sample_1_weight : ℚ := 1 - sample_2_weight
  let sample_1_index : ℤ := truncQ sample_index
  let sample_2_index : ℤ := Int.land (sample_1_index + 1) (MASK : ℤ)
  let table_1 : ℤ → ℚ := wt.samples state.table_index_0
  if !state.needs_table_interpolation then
    sample_1_weight * table_1 sample_1_index
      + sample_2_weight * table_1 sample_2_index
  else
    let table_2 : ℤ → ℚ := wt.samples state.table_index_1
    state.table_weight_0 * (
        sample_1_weight * table_1 sample_1_index
          + sample_2_weight * table_1 sample_2_index
      )
      + state.table_weight_1 * (
        sample_1_weight * table_2 sample_1_index
          + sample_2_weight * table_2 sample_2_index
      )

/-- Wavetable::interpolate_sample_lagrange: 3-point Lagrange (quadratic)
interpolation, blending two tables when `needs_table_interpolation` is
set. -/
def interpolate_sample_lagrange (wt : Wavetable) (state : WavetableState)
    (sample_index : ℚ) : ℚ :=
  let sample_1_index : ℤ := truncQ sample_index
  let sample_2_index : ℤ := Int.land (sample_1_index + 1) (MASK : ℤ)
  let sample_3_index : ℤ := Int.land (sample_2_index + 1) (MASK : ℤ)
  let table_1 : ℤ → ℚ := wt.samples state.table_index_0
  let f_1_1 : ℚ := table_1 sample_1_index
  let f_1_2 : ℚ := table_1 sample_2_index
  let f_1_3 : ℚ := table_1 sample_3_index
  let t : ℚ := sample_index - (⌊sample_index⌋ : ℚ)
  let t_sqr : ℚ := t * t
  let a_1 : ℚ := (1 / 2) * (t_sqr - t)
  let a_2 : ℚ := 1 - t_sqr
  let a_3 : ℚ := (1 / 2) * (t_sqr + t)
  if !state.needs_table_interpolation then
    a_1 * f_1_1 + a_2 * f_1_2 + a_3 * f_1_3
  else
    let table_2 : ℤ → ℚ := wt.samples state.table_index_1
    let f_2_1 : ℚ := table_2 sample_1_index
    let f_2_2 : ℚ := table_2 sample_2_index
    let f_2_3 : ℚ := table_2 sample_3_index
    state.table_weight_0 * (a_1 * f_1_1 + a_2 * f_1_2 + a_3 * f_1_3)
      + state.table_weight_1 * (a_1 * f_2_1 + a_2 * f_2_2 + a_3 * f_2_3)

/-- Wavetable::interpolate: selects the interpolation order by comparing
the frequency with the precomputed interpolation limit. -/
def interpolate (wt : Wavetable) (state : WavetableState) (frequency : ℚ)
    (sample_index : ℚ) : ℚ :=
  if state.interpolation_limit ≤ frequency then
    interpolate_sample_linear wt state sample_index
  else
    interpolate_sample_lagrange wt state sample_index

/-- Representable harmonic count `max_partials = nyquist / |frequency|`
computed by the multi-table branch of Wavetable::lookup. -/
def wt_max_partials (state : WavetableState) (abs_frequency : ℚ) : ℚ :=
  state.nyquist_frequency / abs_frequency

/-- The local `more_partials_index` of Wavetable::lookup:
`max(0, min(partials, (Integer)max_partials) - 1)`. -/
def wt_more_partials_index (wt : Wavetable) (state : WavetableState)
    (abs_frequency : ℚ) : ℤ :=
  max 0 (min wt.partials (truncQ (wt_max_partials state abs_frequency)) - 1)

/-- The local `fewer_partials_index` of Wavetable::lookup:
`max(0, more_partials_index - 1)`. -/
def wt_fewer_partials_index (wt : Wavetable) (state : WavetableState)
    (abs_frequency : ℚ) : ℤ :=
  max 0 (wt_more_partials_index wt state abs_frequency - 1)

/-- Wavetable::lookup: returns one band-limited sample and the updated
state (the C++ function mutates the state through a pointer). -/
def lookup (wt : Wavetable) (state : WavetableState) (frequency : ℚ) :
    ℚ × WavetableState :=
  let abs_frequency : ℚ := |frequency|
  if abs_frequency < 1 / 10000000 then
    (1, state)
  else if state.nyquist_frequency < abs_frequency then
    (0, state)
  else
    let sample_index : ℚ := state.sample_index
    let state1 : WavetableState :=
      { state with
        sample_index := wrap_around (sample_index + state.scale * frequency) }
    if wt.partials = 1 then
      let state2 : WavetableState :=
        { state1 with needs_table_interpolation := false, table_index_0 := 0 }
      (interpolate wt state2 abs_frequency sample_index, state2)
    else
      let max_partials : ℚ := wt_max_partials state abs_frequency
      let more_partials_index : ℤ :=
        wt_more_partials_index wt state abs_frequency
      let fewer_partials_index : ℤ :=
        wt_fewer_partials_index wt state abs_frequency
      let state2 : WavetableState :=
        { state1 with table_index_0 := fewer_partials_index }
      if more_partials_index = fewer_partials_index then
        let state3 : WavetableState :=
          { state2 with needs_table_interpolation := false }
        (interpolate wt state3 abs_frequency sample_index, state3)
      else
        let fewer_partials_weight : ℚ :=
          max_partials - (⌊max_partials⌋ : ℚ)
        let state3 : WavetableState :=
          { state2 with
            needs_table_interpolation := true
            table_index_1 := more_partials_index
            table_weight_0 := fewer_partials_weight
            table_weight_1 := 1 - fewer_partials_weight }
        (interpolate wt state3 abs_frequency sample_index, state3)

/-- Progressively-summed harmonic tables built by the accumulation loops of
Wavetable::update_coefficients before normalization: table `i`, sample `j`
adds `coefficients[i] * sines[(j * (i + 1)) & MASK]` to table `i - 1`. The
global sine table is a parameter because its initialization uses
`Math::sin` from a header outside the sources. -/
def wt_build (sines : ℕ → ℚ) (coefficients : ℕ → ℚ) : ℕ → ℕ → ℚ
  | 0, j => coefficients 0 * sines ((j * 1) &&& MASK)
  | i + 1, j =>
      wt_build sines coefficients i j
        + coefficients (i + 1) * sines ((j * (i + 2)) &&& MASK)

/-- Running maximum of `|sample|` over every table and every sample index,
as accumulated by Wavetable::update_coefficients when `normalize` is set
(the running maximum starts at `0.0`). -/
def wt_max_abs (sines : ℕ → ℚ) (coefficients : ℕ → ℚ) (partials : ℕ) : ℚ :=
  ((Finset.range partials) ×ˢ (Finset.range SIZE)).fold max 0
    (fun p => |wt_build sines coefficients p.1 p.2|)

/-- Wavetable::update_coefficients: fills the tables and, when `normalize`
is set, divides every sample by the global peak magnitude. -/
def update_coefficients (sines : ℕ → ℚ) (coefficients : ℕ → ℚ)
    (partials : ℕ) (normalize : Bool) : ℕ → ℕ → ℚ :=
  if normalize then
    fun i j =>
      wt_build sines coefficients i j / wt_max_abs sines coefficients partials
  else
    wt_build sines coefficients

/-- The sample obtained by interpolating within one single table `k`
(no cross-table blending), used to state the crossfade property of the
multi-table lookup. -/
def sample_single_table (wt : Wavetable) (state : WavetableState) (k : ℤ)
    (abs_frequency : ℚ) (sample_index : ℚ) : ℚ :=
  interpolate wt
    { state with needs_table_interpolation := false, table_index_0 := k }
    abs_frequency sample_index

/-- Inaccuracy::calculate_new_inaccuracy: the recurrence
`0.1 + 0.9 * Math::randomize(1.0, seed)`. `Math::randomize` is declared in
a header outside the sources, so it is passed as an explicit parameter;
modelled from the spec it is a deterministic seeded pseudo-random
function. -/
def calculate_new_inaccuracy (randomize : ℚ → ℚ → ℚ) (seed : ℚ) : ℚ :=
  1 / 10 + 9 / 10 * randomize 1 seed

/-- The Inaccuracy generator state (seed, current value, and the round
guard `last_update_round`, initialized to `-1` by the constructor). -/
structure Inaccuracy where
  seed : ℚ
  inaccuracy : ℚ
  last_update_round : ℤ
deriving DecidableEq

/-- Inaccuracy::Inaccuracy(seed): starts with `inaccuracy = seed` and
`last_update_round = -1`. -/
def Inaccuracy.init (seed : ℚ) : Inaccuracy :=
  ⟨seed, seed, -1⟩

/-- Inaccuracy::get_inaccuracy. -/
def Inaccuracy.get_inaccuracy (s : Inaccuracy) : ℚ :=
  s.inaccuracy

/-- Inaccuracy::update: advances the recurrence only when the round
differs from the last update round. -/
def Inaccuracy.update (randomize : ℚ → ℚ → ℚ) (round : ℤ)
    (s : Inaccuracy) : Inaccuracy :=
  if s.last_update_round ≠ round then
    { s with
      last_update_round := round
      inaccuracy := calculate_new_inaccuracy randomize s.inaccuracy }
  else
    s

/-- Inaccuracy::reset: restores the original seed value. -/
def Inaccuracy.reset (s : Inaccuracy) : Inaccuracy :=
  { s with inaccuracy := s.seed }

/-- MIDI note-count bound. Modelled from the spec: lifecycle calls no-op
for notes at or above the note-count bound (`Midi::NOTES`, declared in a
header outside the sources; the code divides notes by 127.0, giving 128
notes). -/
def NOTES : ℕ := 128

/-- The two lifecycle states of a voice. -/
inductive VoiceState where
  | OFF : VoiceState
  | ON : VoiceState
deriving DecidableEq

/-- A voice: the lifecycle fields of the C++ `Voice` template plus a type
parameter `δ` standing for the DSP sub-objects (oscillator, filters,
wavefolder, envelopes, schedulers) that lifecycle calls act on. -/
structure Voice (δ : Type) where
  state : VoiceState
  note_id : ℤ
  note : ℕ
  channel : ℕ
  inaccuracy : ℚ
  dsp : δ
deriving DecidableEq

/-- Voice::save_note_info. -/
def Voice.save_note_info {δ : Type} (v : Voice δ) (note_id : ℤ) (note : ℕ)
    (channel : ℕ) : Voice δ :=
  { v with note_id := note_id, note := note, channel := channel }

/-- Voice::update_inaccuracy. -/
def Voice.update_inaccuracy {δ : Type} (randomize : ℚ → ℚ → ℚ)
    (v : Voice δ) : Voice δ :=
  { v with inaccuracy := calculate_new_inaccuracy randomize v.inaccuracy }

/-- Voice::note_on: no-op when the voice is already `ON` or the note is
out of range; otherwise sets the state to `ON`, stores the note identity,
advances the inaccuracy and schedules values and envelopes on the DSP
sub-objects, abstracted as `schedule_on`. -/
def Voice.note_on {δ : Type} (randomize : ℚ → ℚ → ℚ)
    (schedule_on : ℚ → ℤ → ℕ → ℕ → ℚ → ℕ → δ → δ) (v : Voice δ)
    (time_offset : ℚ) (note_id : ℤ) (note : ℕ) (channel : ℕ)
    (velocity : ℚ) (previous_note : ℕ) : Voice δ :=
  if v.state = VoiceState.ON ∨ NOTES ≤ note then
    v
  else
    let v1 : Voice δ := { v with state := VoiceState.ON }
    let v2 : Voice δ := Voice.save_note_info v1 note_id note channel
    let v3 : Voice δ := Voice.update_inaccuracy randomize v2
    { v3 with
      dsp := schedule_on time_offset note_id note channel velocity
        previous_note v3.dsp }

/-- Voice::note_off: no-op unless the voice is `ON` and the given
`(note_id, note)` pair matches the held note; otherwise ends the
envelopes and schedules the oscillator stop on the DSP sub-objects
(abstracted as `schedule_off`) and sets the state to `OFF`. -/
def Voice.note_off {δ : Type} (schedule_off : ℚ → ℚ → δ → δ)
    (v : Voice δ) (time_offset : ℚ) (note_id : ℤ) (note : ℕ)
    (velocity : ℚ) : Voice δ :=
  if v.state ≠ VoiceState.ON ∨ note_id ≠ v.note_id ∨ note ≠ v.note then
    v
  else
    { v with
      state := VoiceState.OFF
      dsp := schedule_off time_offset velocity v.dsp }

/-- The block-rate inputs Voice::render reads, as resolved by
Voice::initialize_rendering: each panning input is either a per-sample
buffer (`some`) or a block constant (`none`, the C++ `NULL` buffer), and
the mono input is the output buffer of the volume applier stage. -/
structure VoiceRenderInputs where
  panning_buffer : Option (ℕ → ℚ)
  panning_value : ℚ
  note_panning_buffer : Option (ℕ → ℚ)
  note_panning_value : ℚ
  volume_applier_buffer : ℕ → ℚ

/-- Voice::render: the stereo equal-power panning stage with its four
constant/buffer fast paths. `Math::sincos` and `Math::PI_QUARTER` live in
a header outside the sources; modelled from the spec, `sincos x` returns
the pair (sine, cosine) — the C++ call `Math::sincos(x, right_gain,
left_gain)` routes the sine to the right gain and the cosine to the left
gain — and `pi_quarter` stands for π/4. The C++ loop writes
`buffer[0][i]` and `buffer[1][i]` for `i` in `[first_sample_index,
last_sample_index)`; the model returns the updated channel pair. -/
def Voice_render (sincos : ℚ → ℚ × ℚ) (pi_quarter : ℚ)
    (vr : VoiceRenderInputs) (first_sample_index : ℕ)
    (last_sample_index : ℕ) (buffer : (ℕ → ℚ) × (ℕ → ℚ)) :
    (ℕ → ℚ) × (ℕ → ℚ) :=
  match vr.note_panning_buffer, vr.panning_buffer with
  | none, none =>
      let panning : ℚ :=
        min 1 (max (vr.panning_value + vr.note_panning_value) (-1))
      let x : ℚ := (panning + 1) * pi_quarter
      let right_gain : ℚ := (sincos x).1
      let left_gain : ℚ := (sincos x).2
      (fun i =>
        if first_sample_index ≤ i ∧ i < last_sample_index then
          left_gain * vr.volume_applier_buffer i
        else buffer.1 i,
       fun i =>
        if first_sample_index ≤ i ∧ i < last_sample_index then
          right_gain * vr.volume_applier_buffer i
        else buffer.2 i)
  | none, some panning_buffer =>
      (fun i =>
        if first_sample_index ≤ i ∧ i < last_sample_index then
          (sincos ((min 1 (max (panning_buffer i + vr.note_panning_value)
            (-1)) + 1) * pi_quarter)).2 * vr.volume_applier_buffer i
        else buffer.1 i,
       fun i =>
        if first_sample_index ≤ i ∧ i < last_sample_index then
          (sincos ((min 1 (max (panning_buffer i + vr.note_panning_value)
            (-1)) + 1) * pi_quarter)).1 * vr.volume_applier_buffer i
        else buffer.2 i)
  | some note_panning_buffer, none =>
      (fun i =>
        if first_sample_index ≤ i ∧ i < last_sample_index then
          (sincos ((min 1 (max (vr.panning_value + note_panning_buffer i)
            (-1)) + 1) * pi_quarter)).2 * vr.volume_applier_buffer i
        else buffer.1 i,
       fun i =>
        if first_sample_index ≤ i ∧ i < last_sample_index then
          (sincos ((min 1 (max (vr.panning_value + note_panning_buffer i)
            (-1)) + 1) * pi_quarter)).1 * vr.volume_applier_buffer i
        else buffer.2 i)
  | some note_panning_buffer, some panning_buffer =>
      (fun i =>
        if first_sample_index ≤ i ∧ i < last_sample_index then
          (sincos ((min 1 (max (panning_buffer i + note_panning_buffer i)
            (-1)) + 1) * pi_quarter)).2 * vr.volume_applier_buffer i
        else buffer.1 i,
       fun i =>
        if first_sample_index ≤ i ∧ i < last_sample_index then
          (sincos ((min 1 (max (panning_buffer i + note_panning_buffer i)
            (-1)) + 1) * pi_quarter)).1 * vr.volume_applier_buffer i
        else buffer.2 i)

/-- The sum of the panning parameter and the per-note panning offset at
sample `i`, each taken from its buffer when one exists and from the block
constant otherwise. -/
def resolved_panning (vr : VoiceRenderInputs) (i : ℕ) : ℚ :=
  (match vr.panning_buffer with
   | none => vr.panning_value
   | some panning_buffer => panning_buffer i) +
  (match vr.note_panning_buffer with
   | none => vr.note_panning_value
   | some note_panning_buffer => note_panning_buffer i)


/-- C8: for every rational index `x`, `wrap_around x` lies in `[0, SIZE)`
and is invariant under shifting `x` by any integer multiple of `SIZE`: the
mapping is the floor-based modulo, so it is correct for negative indices
arising from negative frequencies. -/
theorem wrap_around_mem_Ico_and_periodic (x : ℚ) (k : ℤ) :
    0 ≤ wrap_around x ∧ wrap_around x < SIZE_FLOAT ∧
      wrap_around (x + (k : ℚ) * SIZE_FLOAT) = wrap_around x := by
  have h1 : ((⌊x * SIZE_INV⌋ : ℚ)) ≤ x * SIZE_INV := Int.floor_le _
  have h2 : x * SIZE_INV < (⌊x * SIZE_INV⌋ : ℚ) + 1 := Int.lt_floor_add_one _
  have hIF : SIZE_INV * SIZE_FLOAT = 1 := by
    norm_num [SIZE_INV, SIZE_FLOAT, SIZE]
  have hFpos : (0 : ℚ) < SIZE_FLOAT := by norm_num [SIZE_FLOAT, SIZE]
  have h1' : ((⌊x * SIZE_INV⌋ : ℚ)) * SIZE_FLOAT ≤ x := by
    calc ((⌊x * SIZE_INV⌋ : ℚ)) * SIZE_FLOAT
        ≤ x * SIZE_INV * SIZE_FLOAT :=
          mul_le_mul_of_nonneg_right h1 (le_of_lt hFpos)
      _ = x * (SIZE_INV * SIZE_FLOAT) := by ring
      _ = x := by rw [hIF, mul_one]
  have h2' : x < ((⌊x * SIZE_INV⌋ : ℚ) + 1) * SIZE_FLOAT := by
    calc x = x * (SIZE_INV * SIZE_FLOAT) := by rw [hIF, mul_one]
      _ = x * SIZE_INV * SIZE_FLOAT := by ring
      _ < ((⌊x * SIZE_INV⌋ : ℚ) + 1) * SIZE_FLOAT :=
          mul_lt_mul_of_pos_right h2 hFpos
  refine ⟨?_, ?_, ?_⟩
  · rw [wrap_around]
    linarith [h1']
  · rw [wrap_around]
    nlinarith [h2']
  · rw [wrap_around, wrap_around]
    have harg : (x + (k : ℚ) * SIZE_FLOAT) * SIZE_INV = x * SIZE_INV + (k : ℚ) := by
      have : SIZE_FLOAT * SIZE_INV = 1 := by
        rw [mul_comm]; exact hIF
      calc (x + (k : ℚ) * SIZE_FLOAT) * SIZE_INV
          = x * SIZE_INV + (k : ℚ) * (SIZE_FLOAT * SIZE_INV) := by ring
        _ = x * SIZE_INV + (k : ℚ) := by rw [this, mul_one]
    rw [harg, Int.floor_add_int]
    push_cast
    ring

/-- C1: `lookup` degrades degenerate frequencies to a constant: it returns
`1` whenever `|frequency| < 1e-7` and `0` whenever `|frequency|` exceeds
the state's Nyquist frequency (the Nyquist frequency of any real state is
far above the `1e-7` threshold). -/
theorem lookup_degenerate_values (wt : Wavetable) (state : WavetableState)
    (frequency : ℚ) (hnyq : 1 / 10000000 ≤ state.nyquist_frequency) :
    (|frequency| < 1 / 10000000 → (lookup wt state frequency).1 = 1) ∧
      (state.nyquist_frequency < |frequency| →
        (lookup wt state frequency).1 = 0) := by
  constructor
  · intro h
    simp only [lookup]
    rw [if_pos h]
  · intro h
    have hge : ¬ |frequency| < 1 / 10000000 := by
      push_neg
      exact le_trans hnyq (le_of_lt h)
    simp only [lookup]
    rw [if_neg hge, if_pos h]

/-- C1 witness: the degenerate values at concrete inputs. -/
theorem lookup_degenerate_values_witness :
    (lookup ⟨1, fun _ _ => 0⟩
        ⟨0, 1, 22050, 11025, false, 0, 0, 0, 0⟩ 0).1 = 1 ∧
      (lookup ⟨1, fun _ _ => 0⟩
        ⟨0, 1, 22050, 11025, false, 0, 0, 0, 0⟩ 30000).1 = 0 := by
  constructor
  · exact
      (lookup_degenerate_values ⟨1, fun _ _ => 0⟩
        ⟨0, 1, 22050, 11025, false, 0, 0, 0, 0⟩ 0 (by norm_num)).1
      (by norm_num)
  · exact
      (lookup_degenerate_values ⟨1, fun _ _ => 0⟩
        ⟨0, 1, 22050, 11025, false, 0, 0, 0, 0⟩ 30000 (by norm_num)).2
      (by norm_num)

/-- C10: when `lookup` takes a degenerate branch (near-zero frequency or a
frequency above Nyquist) the state is returned completely unchanged: the
phase accumulator is not advanced and no other field is written. -/
theorem lookup_degenerate_frame (wt : Wavetable) (state : WavetableState)
    (frequency : ℚ) (hnyq : 1 / 10000000 ≤ state.nyquist_frequency) :
    (|frequency| < 1 / 10000000 → (lookup wt state frequency).2 = state) ∧
      (state.nyquist_frequency < |frequency| →
        (lookup wt state frequency).2 = state) := by
  constructor
  · intro h
    simp only [lookup]
    rw [if_pos h]
  · intro h
    have hge : ¬ |frequency| < 1 / 10000000 := by
      push_neg
      exact le_trans hnyq (le_of_lt h)
    simp only [lookup]
    rw [if_neg hge, if_pos h]

/-- C10 witness: the state is unchanged at concrete degenerate inputs. -/
theorem lookup_degenerate_frame_witness :
    (lookup ⟨1, fun _ _ => 0⟩
        ⟨5, 1, 22050, 11025, false, 0, 0, 0, 0⟩ 0).2 =
      ⟨5, 1, 22050, 11025, false, 0, 0, 0, 0⟩ ∧
      (lookup ⟨1, fun _ _ => 0⟩
        ⟨5, 1, 22050, 11025, false, 0, 0, 0, 0⟩ 30000).2 =
      ⟨5, 1, 22050, 11025, false, 0, 0, 0, 0⟩ := by
  constructor
  · exact
      (lookup_degenerate_frame ⟨1, fun _ _ => 0⟩
        ⟨5, 1, 22050, 11025, false, 0, 0, 0, 0⟩ 0 (by norm_num)).1
      (by norm_num)
  · exact
      (lookup_degenerate_frame ⟨1, fun _ _ => 0⟩
        ⟨5, 1, 22050, 11025, false, 0, 0, 0, 0⟩ 30000 (by norm_num)).2
      (by norm_num)

/-- C3: after normalizing construction (the constructor always passes
`normalize = true`), every stored sample of every table has absolute value
at most `1`; in the exact-rational model the float-tolerant bound
`1.0 + epsilon` is attained with `epsilon = 0`. The hypothesis that the
global peak is positive is the construction precondition (a coefficient
vector that is not identically annihilated). -/
theorem update_coefficients_normalized_bound (sines : ℕ → ℚ)
    (coefficients : ℕ → ℚ) (partials : ℕ)
    (hmax : 0 < wt_max_abs sines coefficients partials) :
    ∀ i < partials, ∀ j < SIZE,
      |update_coefficients sines coefficients partials true i j| ≤ 1 := by
  intro i hi j hj
  have hmem : (i, j) ∈ (Finset.range partials) ×ˢ (Finset.range SIZE) :=
    Finset.mem_product.mpr ⟨Finset.mem_range.mpr hi, Finset.mem_range.mpr hj⟩
  have hle : |wt_build sines coefficients i j| ≤
      wt_max_abs sines coefficients partials :=
    ((Finset.fold_max_le (wt_max_abs sines coefficients partials)).mp
      (le_refl _)).2 (i, j) hmem
  have : update_coefficients sines coefficients partials true i j =
      wt_build sines coefficients i j / wt_max_abs sines coefficients partials := by
    simp [update_coefficients]
  rw [this, abs_div, abs_of_pos hmax]
  exact (div_le_one hmax).mpr hle

/-- C3 witness: with an all-ones sine table and the single coefficient
vector `[1]`, the peak is positive and the normalized sample is bounded. -/
theorem update_coefficients_normalized_bound_witness :
    |update_coefficients (fun _ => 1) (fun _ => 1) 1 true 0 0| ≤ 1 := by
  have hmax : 0 < wt_max_abs (fun _ => 1) (fun _ => 1) 1 := by
    have h1 : (1 : ℚ) ≤ wt_max_abs (fun _ => 1) (fun _ => 1) 1 := by
      apply (Finset.le_fold_max 1).mpr
      refine Or.inr ⟨(0, 0), ?_, ?_⟩
      · exact Finset.mem_product.mpr
          ⟨Finset.mem_range.mpr (by norm_num),
            Finset.mem_range.mpr (by norm_num [SIZE])⟩
      · norm_num [wt_build]
    linarith
  exact update_coefficients_normalized_bound (fun _ => 1) (fun _ => 1) 1 hmax
    0 (by norm_num) 0 (by norm_num [SIZE])

/-- Under a non-degenerate frequency, the sample returned by `lookup` is
the interpolation of the updated state at the saved (pre-advance) phase. -/
theorem lookup_nondegenerate_fst (wt : Wavetable) (state : WavetableState)
    (frequency : ℚ) (h1 : 1 / 10000000 ≤ |frequency|)
    (h2 : |frequency| ≤ state.nyquist_frequency) :
    (lookup wt state frequency).1 =
      interpolate wt (lookup wt state frequency).2 |frequency|
        state.sample_index := by
  have h1' : ¬ |frequency| < 1 / 10000000 := not_lt.mpr h1
  have h2' : ¬ state.nyquist_frequency < |frequency| := not_lt.mpr h2
  simp only [lookup]
  rw [if_neg h1', if_neg h2']
  split_ifs <;> rfl

/-- The interpolation limit field is never written by `lookup`. -/
theorem lookup_preserves_interpolation_limit (wt : Wavetable)
    (state : WavetableState) (frequency : ℚ) :
    (lookup wt state frequency).2.interpolation_limit =
      state.interpolation_limit := by
  simp only [lookup]
  split_ifs <;> rfl

/-- C4: for every non-degenerate lookup, exactly one of the two
interpolation formulas is applied, selected only by comparing the absolute
frequency against the precomputed interpolation limit: 2-point linear at or
above the limit, 3-point Lagrange below it. -/
theorem lookup_interpolation_order (wt : Wavetable) (state : WavetableState)
    (frequency : ℚ) (h1 : 1 / 10000000 ≤ |frequency|)
    (h2 : |frequency| ≤ state.nyquist_frequency) :
    (state.interpolation_limit ≤ |frequency| →
      (lookup wt state frequency).1 =
        interpolate_sample_linear wt (lookup wt state frequency).2
          state.sample_index) ∧
      (|frequency| < state.interpolation_limit →
        (lookup wt state frequency).1 =
          interpolate_sample_lagrange wt (lookup wt state frequency).2
            state.sample_index) := by
  rw [lookup_nondegenerate_fst wt state frequency h1 h2]
  rw [interpolate, lookup_preserves_interpolation_limit]
  constructor
  · intro hcmp
    rw [if_pos hcmp]
  · intro hcmp
    rw [if_neg (not_le.mpr hcmp)]

/-- C4 witness: the selection at two concrete frequencies, one on each
side of the interpolation limit. -/
theorem lookup_interpolation_order_witness :
    ((lookup ⟨1, fun _ _ => 0⟩
        ⟨0, 1, 22050, 11025, false, 0, 0, 0, 0⟩ 12000).1 =
      interpolate_sample_linear ⟨1, fun _ _ => 0⟩
        ((lookup ⟨1, fun _ _ => 0⟩
          ⟨0, 1, 22050, 11025, false, 0, 0, 0, 0⟩ 12000)).2 0) ∧
      ((lookup ⟨1, fun _ _ => 0⟩
        ⟨0, 1, 22050, 11025, false, 0, 0, 0, 0⟩ 100).1 =
      interpolate_sample_lagrange ⟨1, fun _ _ => 0⟩
        ((lookup ⟨1, fun _ _ => 0⟩
          ⟨0, 1, 22050, 11025, false, 0, 0, 0, 0⟩ 100)).2 0) := by
  constructor
  · exact
      (lookup_interpolation_order ⟨1, fun _ _ => 0⟩
        ⟨0, 1, 22050, 11025, false, 0, 0, 0, 0⟩ 12000
        (by norm_num) (by norm_num)).1 (by norm_num)
  · exact
      (lookup_interpolation_order ⟨1, fun _ _ => 0⟩
        ⟨0, 1, 22050, 11025, false, 0, 0, 0, 0⟩ 100
        (by norm_num) (by norm_num)).2 (by norm_num)

/-- C5: for every non-degenerate lookup on a wavetable with more than one
table, the selected table indices are clamped to `[0, partials - 1]`;
when the two indices differ the returned sample is the crossfade of the
two adjacent tables with weights `(frac, 1 - frac)` summing to `1`, where
`frac = max_partials - floor(max_partials)` and
`max_partials = nyquist / |frequency|`; when they coincide a single table
is sampled. -/
theorem lookup_table_crossfade (wt : Wavetable) (state : WavetableState)
    (frequency : ℚ) (h1 : 1 / 10000000 ≤ |frequency|)
    (h2 : |frequency| ≤ state.nyquist_frequency) (hp : 1 < wt.partials) :
    (0 ≤ wt_fewer_partials_index wt state |frequency| ∧
      wt_fewer_partials_index wt state |frequency| ≤
        wt_more_partials_index wt state |frequency| ∧
      wt_more_partials_index wt state |frequency| ≤ wt.partials - 1) ∧
    (wt_more_partials_index wt state |frequency| ≠
        wt_fewer_partials_index wt state |frequency| →
      (lookup wt state frequency).2.table_weight_0 =
        wt_max_partials state |frequency| -
          (⌊wt_max_partials state |frequency|⌋ : ℚ) ∧
      (lookup wt state frequency).2.table_weight_0 +
        (lookup wt state frequency).2.table_weight_1 = 1 ∧
      (lookup wt state frequency).1 =
        (lookup wt state frequency).2.table_weight_0 *
          sample_single_table wt (lookup wt state frequency).2
            (wt_fewer_partials_index wt state |frequency|) |frequency|
            state.sample_index
        + (lookup wt state frequency).2.table_weight_1 *
          sample_single_table wt (lookup wt state frequency).2
            (wt_more_partials_index wt state |frequency|) |frequency|
            state.sample_index) ∧
    (wt_more_partials_index wt state |frequency| =
        wt_fewer_partials_index wt state |frequency| →
      (lookup wt state frequency).2.needs_table_interpolation = false ∧
      (lookup wt state frequency).2.table_index_0 =
        wt_fewer_partials_index wt state |frequency| ∧
      (lookup wt state frequency).1 =
        sample_single_table wt (lookup wt state frequency).2
          (wt_fewer_partials_index wt state |frequency|) |frequency|
          state.sample_index) := by
  have habs_pos : (0 : ℚ) < |frequency| := lt_of_lt_of_le (by norm_num) h1
  have hmp1 : (1 : ℚ) ≤ wt_max_partials state |frequency| := by
    rw [wt_max_partials]
    exact (one_le_div habs_pos).mpr h2
  have ht : 1 ≤ truncQ (wt_max_partials state |frequency|) := by
    rw [truncQ, if_pos (le_trans zero_le_one hmp1)]
    exact Int.le_floor.mpr (by exact_mod_cast hmp1)
  have hbounds : 0 ≤ wt_fewer_partials_index wt state |frequency| ∧
      wt_fewer_partials_index wt state |frequency| ≤
        wt_more_partials_index wt state |frequency| ∧
      wt_more_partials_index wt state |frequency| ≤ wt.partials - 1 := by
    rw [wt_fewer_partials_index, wt_more_partials_index]
    omega
  have h1' : ¬ |frequency| < 1 / 10000000 := not_lt.mpr h1
  have h2' : ¬ state.nyquist_frequency < |frequency| := not_lt.mpr h2
  have hp1 : wt.partials ≠ 1 := by omega
  refine ⟨hbounds, ?_, ?_⟩
  · intro hmf
    simp only [lookup]
    rw [if_neg h1', if_neg h2', if_neg hp1, if_neg hmf]
    refine ⟨rfl, by ring, ?_⟩
    rw [sample_single_table, sample_single_table, interpolate, interpolate,
      interpolate]
    by_cases hlim : state.interpolation_limit ≤ |frequency|
    · rw [if_pos hlim, if_pos hlim, if_pos hlim]
      rw [interpolate_sample_linear, interpolate_sample_linear,
        interpolate_sample_linear]
      simp
    · rw [if_neg hlim, if_neg hlim, if_neg hlim]
      rw [interpolate_sample_lagrange, interpolate_sample_lagrange,
        interpolate_sample_lagrange]
      simp
  · intro hmf
    simp only [lookup]
    rw [if_neg h1', if_neg h2', if_neg hp1, if_pos hmf]
    refine ⟨rfl, rfl, ?_⟩
    rw [sample_single_table]

/-- C5 witness: at 9000 Hz with four tables the two indices differ and the
crossfade property holds; at 22050 Hz they coincide and a single table is
sampled. -/
theorem lookup_table_crossfade_witness :
    ((lookup ⟨4, fun _ _ => 0⟩ ⟨0, 1, 22050, 11025, false, 0, 0, 0, 0⟩
        9000).2.table_weight_0 =
      wt_max_partials ⟨0, 1, 22050, 11025, false, 0, 0, 0, 0⟩ |(9000 : ℚ)| -
        (⌊wt_max_partials ⟨0, 1, 22050, 11025, false, 0, 0, 0, 0⟩
          |(9000 : ℚ)|⌋ : ℚ) ∧
      (lookup ⟨4, fun _ _ => 0⟩ ⟨0, 1, 22050, 11025, false, 0, 0, 0, 0⟩
        9000).2.table_weight_0 +
        (lookup ⟨4, fun _ _ => 0⟩ ⟨0, 1, 22050, 11025, false, 0, 0, 0, 0⟩
          9000).2.table_weight_1 = 1 ∧
      (lookup ⟨4, fun _ _ => 0⟩ ⟨0, 1, 22050, 11025, false, 0, 0, 0, 0⟩
        9000).1 =
        (lookup ⟨4, fun _ _ => 0⟩ ⟨0, 1, 22050, 11025, false, 0, 0, 0, 0⟩
          9000).2.table_weight_0 *
          sample_single_table ⟨4, fun _ _ => 0⟩
            (lookup ⟨4, fun _ _ => 0⟩ ⟨0, 1, 22050, 11025, false, 0, 0, 0, 0⟩
              9000).2
            (wt_fewer_partials_index ⟨4, fun _ _ => 0⟩
              ⟨0, 1, 22050, 11025, false, 0, 0, 0, 0⟩ |(9000 : ℚ)|)
            |(9000 : ℚ)|
            (⟨0, 1, 22050, 11025, false, 0, 0, 0, 0⟩ :
              WavetableState).sample_index
        + (lookup ⟨4, fun _ _ => 0⟩ ⟨0, 1, 22050, 11025, false, 0, 0, 0, 0⟩
            9000).2.table_weight_1 *
          sample_single_table ⟨4, fun _ _ => 0⟩
            (lookup ⟨4, fun _ _ => 0⟩ ⟨0, 1, 22050, 11025, false, 0, 0, 0, 0⟩
              9000).2
            (wt_more_partials_index ⟨4, fun _ _ => 0⟩
              ⟨0, 1, 22050, 11025, false, 0, 0, 0, 0⟩ |(9000 : ℚ)|)
            |(9000 : ℚ)|
            (⟨0, 1, 22050, 11025, false, 0, 0, 0, 0⟩ :
              WavetableState).sample_index) ∧
    ((lookup ⟨4, fun _ _ => 0⟩ ⟨0, 1, 22050, 11025, false, 0, 0, 0, 0⟩
        22050).2.needs_table_interpolation = false ∧
      (lookup ⟨4, fun _ _ => 0⟩ ⟨0, 1, 22050, 11025, false, 0, 0, 0, 0⟩
        22050).2.table_index_0 =
        wt_fewer_partials_index ⟨4, fun _ _ => 0⟩
          ⟨0, 1, 22050, 11025, false, 0, 0, 0, 0⟩ |(22050 : ℚ)| ∧
      (lookup ⟨4, fun _ _ => 0⟩ ⟨0, 1, 22050, 11025, false, 0, 0, 0, 0⟩
        22050).1 =
        sample_single_table ⟨4, fun _ _ => 0⟩
          (lookup ⟨4, fun _ _ => 0⟩ ⟨0, 1, 22050, 11025, false, 0, 0, 0, 0⟩
            22050).2
          (wt_fewer_partials_index ⟨4, fun _ _ => 0⟩
            ⟨0, 1, 22050, 11025, false, 0, 0, 0, 0⟩ |(22050 : ℚ)|)
          |(22050 : ℚ)|
          (⟨0, 1, 22050, 11025, false, 0, 0, 0, 0⟩ :
            WavetableState).sample_index) := by
  constructor
  · exact
      (lookup_table_crossfade ⟨4, fun _ _ => 0⟩
        ⟨0, 1, 22050, 11025, false, 0, 0, 0, 0⟩ 9000
        (by norm_num) (by norm_num) (by norm_num)).2.1
      (by norm_num [wt_more_partials_index, wt_fewer_partials_index,
        wt_max_partials, truncQ])
  · exact
      (lookup_table_crossfade ⟨4, fun _ _ => 0⟩
        ⟨0, 1, 22050, 11025, false, 0, 0, 0, 0⟩ 22050
        (by norm_num) (by norm_num) (by norm_num)).2.2
      (by norm_num [wt_more_partials_index, wt_fewer_partials_index,
        wt_max_partials, truncQ])

/-- C6: updating a second (or any further) time with the same round value
leaves `get_inaccuracy` unchanged after the first call: the advance
happens exactly once per distinct round value. -/
theorem inaccuracy_update_idempotent (randomize : ℚ → ℚ → ℚ) (round : ℤ)
    (s : Inaccuracy) (n : ℕ) :
    Inaccuracy.get_inaccuracy
        ((Inaccuracy.update randomize round)^[n + 1] s) =
      Inaccuracy.get_inaccuracy (Inaccuracy.update randomize round s) := by
  have hfix :
      Inaccuracy.update randomize round (Inaccuracy.update randomize round s) =
        Inaccuracy.update randomize round s := by
    by_cases h : s.last_update_round ≠ round
    · simp [Inaccuracy.update, h]
    · simp [Inaccuracy.update, h]
  have hiter : ∀ m : ℕ,
      (Inaccuracy.update randomize round)^[m + 1] s =
        Inaccuracy.update randomize round s := by
    intro m
    induction m with
    | zero => rw [Function.iterate_one]
    | succ k ih => rw [Function.iterate_succ_apply', ih, hfix]
  rw [hiter n]

/-- C7: every effective advance applies exactly the recurrence
`next = 0.1 + 0.9 * randomize(1, prev)`, and when `randomize` yields
values in the open unit interval (the spec bounds the result to the open
interval `(0.1, 1.0)`), after a first effective update followed by any
further sequence of updates the value of `get_inaccuracy` lies strictly
between `0.1` and `1`. -/
theorem inaccuracy_recurrence_and_bounds (randomize : ℚ → ℚ → ℚ)
    (hr : ∀ x : ℚ, 0 < randomize 1 x ∧ randomize 1 x < 1) :
    (∀ (s : Inaccuracy) (round : ℤ), s.last_update_round ≠ round →
      (Inaccuracy.update randomize round s).inaccuracy =
        1 / 10 + 9 / 10 * randomize 1 s.inaccuracy) ∧
    (∀ (s : Inaccuracy) (round : ℤ) (rounds : List ℤ),
      s.last_update_round ≠ round →
      1 / 10 < Inaccuracy.get_inaccuracy
          (rounds.foldl (fun t r => Inaccuracy.update randomize r t)
            (Inaccuracy.update randomize round s)) ∧
        Inaccuracy.get_inaccuracy
          (rounds.foldl (fun t r => Inaccuracy.update randomize r t)
            (Inaccuracy.update randomize round s)) < 1) := by
  have hstep : ∀ (t : Inaccuracy) (r : ℤ),
      1 / 10 < t.inaccuracy → t.inaccuracy < 1 →
      1 / 10 < (Inaccuracy.update randomize r t).inaccuracy ∧
        (Inaccuracy.update randomize r t).inaccuracy < 1 := by
    intro t r ht1 ht2
    rw [Inaccuracy.update]
    split_ifs with h
    · constructor
      · have := (hr t.inaccuracy).1
        simp only [calculate_new_inaccuracy]
        linarith
      · have := (hr t.inaccuracy).2
        simp only [calculate_new_inaccuracy]
        linarith
    · exact ⟨ht1, ht2⟩
  have hfold : ∀ (rs : List ℤ) (t : Inaccuracy),
      1 / 10 < t.inaccuracy → t.inaccuracy < 1 →
      1 / 10 < (rs.foldl (fun u r => Inaccuracy.update randomize r u)
          t).inaccuracy ∧
        (rs.foldl (fun u r => Inaccuracy.update randomize r u)
          t).inaccuracy < 1 := by
    intro rs
    induction rs with
    | nil => intro t h1 h2; exact ⟨h1, h2⟩
    | cons a as ih =>
        intro t h1 h2
        rw [List.foldl_cons]
        exact ih _ (hstep t a h1 h2).1 (hstep t a h1 h2).2
  refine ⟨?_, ?_⟩
  · intro s round h
    rw [Inaccuracy.update, if_pos h]
    rfl
  · intro s round rounds h
    have hinit :
        1 / 10 < (Inaccuracy.update randomize round s).inaccuracy ∧
          (Inaccuracy.update randomize round s).inaccuracy < 1 := by
      rw [Inaccuracy.update, if_pos h]
      constructor
      · have := (hr s.inaccuracy).1
        simp only [calculate_new_inaccuracy]
        linarith
      · have := (hr s.inaccuracy).2
        simp only [calculate_new_inaccuracy]
        linarith
    exact hfold rounds _ hinit.1 hinit.2

/-- C7 witness: with `randomize = 1/2` the recurrence value and the
bounds hold for a fresh generator updated at round 0 and then at rounds
0 and 1. -/
theorem inaccuracy_recurrence_and_bounds_witness :
    ((Inaccuracy.update (fun _ _ => 1 / 2) 0 (Inaccuracy.init 0)).inaccuracy =
      1 / 10 + 9 / 10 * (fun _ _ => (1 / 2 : ℚ)) 1
        (Inaccuracy.init 0).inaccuracy) ∧
    (1 / 10 < Inaccuracy.get_inaccuracy
        (([0, 1] : List ℤ).foldl
          (fun t r => Inaccuracy.update (fun _ _ => 1 / 2) r t)
          (Inaccuracy.update (fun _ _ => 1 / 2) 0 (Inaccuracy.init 0))) ∧
      Inaccuracy.get_inaccuracy
        (([0, 1] : List ℤ).foldl
          (fun t r => Inaccuracy.update (fun _ _ => 1 / 2) r t)
          (Inaccuracy.update (fun _ _ => 1 / 2) 0 (Inaccuracy.init 0))) < 1) := by
  constructor
  · exact
      (inaccuracy_recurrence_and_bounds (fun _ _ => 1 / 2)
        (fun x => by norm_num)).1 (Inaccuracy.init 0) 0 (by decide)
  · exact
      (inaccuracy_recurrence_and_bounds (fun _ _ => 1 / 2)
        (fun x => by norm_num)).2 (Inaccuracy.init 0) 0 [0, 1] (by decide)

/-- C2: `note_on` on an already-`ON` voice, or with a note at or above the
note-count bound, leaves the voice completely unchanged (in particular
state, note_id, note and channel), and `note_off` whose `(note_id, note)`
pair does not match the held note leaves the voice completely unchanged. -/
theorem voice_lifecycle_noops {δ : Type} (randomize : ℚ → ℚ → ℚ)
    (schedule_on : ℚ → ℤ → ℕ → ℕ → ℚ → ℕ → δ → δ)
    (schedule_off : ℚ → ℚ → δ → δ) (v : Voice δ) (time_offset : ℚ)
    (note_id : ℤ) (note : ℕ) (channel : ℕ) (velocity : ℚ)
    (previous_note : ℕ) :
    (v.state = VoiceState.ON →
      Voice.note_on randomize schedule_on v time_offset note_id note channel
        velocity previous_note = v) ∧
    (NOTES ≤ note →
      Voice.note_on randomize schedule_on v time_offset note_id note channel
        velocity previous_note = v) ∧
    (note_id ≠ v.note_id ∨ note ≠ v.note →
      Voice.note_off schedule_off v time_offset note_id note velocity = v) := by
  refine ⟨?_, ?_, ?_⟩
  · intro h
    rw [Voice.note_on, if_pos (Or.inl h)]
  · intro h
    rw [Voice.note_on, if_pos (Or.inr h)]
  · intro h
    rw [Voice.note_off, if_pos (Or.inr h)]

/-- C2 witness: the three no-ops at concrete voices. -/
theorem voice_lifecycle_noops_witness :
    (Voice.note_on (fun _ _ => 0) (fun _ _ _ _ _ _ d => d)
      (⟨VoiceState.ON, 1, 60, 0, 0, ()⟩ : Voice Unit) 0 2 61 0 1 60 =
      ⟨VoiceState.ON, 1, 60, 0, 0, ()⟩) ∧
    (Voice.note_on (fun _ _ => 0) (fun _ _ _ _ _ _ d => d)
      (⟨VoiceState.OFF, 1, 60, 0, 0, ()⟩ : Voice Unit) 0 2 200 0 1 60 =
      ⟨VoiceState.OFF, 1, 60, 0, 0, ()⟩) ∧
    (Voice.note_off (fun _ _ d => d)
      (⟨VoiceState.ON, 1, 60, 0, 0, ()⟩ : Voice Unit) 0 2 60 0 =
      ⟨VoiceState.ON, 1, 60, 0, 0, ()⟩) := by
  refine ⟨?_, ?_, ?_⟩
  · exact
      (voice_lifecycle_noops (fun _ _ => 0) (fun _ _ _ _ _ _ d => d)
        (fun _ _ d => d) (⟨VoiceState.ON, 1, 60, 0, 0, ()⟩ : Voice Unit)
        0 2 61 0 1 60).1 rfl
  · exact
      (voice_lifecycle_noops (fun _ _ => 0) (fun _ _ _ _ _ _ d => d)
        (fun _ _ d => d) (⟨VoiceState.OFF, 1, 60, 0, 0, ()⟩ : Voice Unit)
        0 2 200 0 1 60).2.1 (by norm_num [NOTES])
  · exact
      (voice_lifecycle_noops (fun _ _ => 0) (fun _ _ _ _ _ _ d => d)
        (fun _ _ d => d) (⟨VoiceState.ON, 1, 60, 0, 0, ()⟩ : Voice Unit)
        0 2 60 0 1 60).2.2 (Or.inl (by decide))

/-- C9: in every rendered block and for each of the four constant/buffer
combinations of the panning inputs, every written stereo sample obeys the
equal-power pan law: the left sample is `cos x` times the mono sample and
the right sample is `sin x` times the mono sample, where
`x = (pan + 1) * pi/4` and `pan` is the panning parameter plus the
per-note panning offset clamped to `[-1, 1]` (`sincos` returns the pair
(sine, cosine)). -/
theorem voice_render_equal_power_pan (sincos : ℚ → ℚ × ℚ)
    (pi_quarter : ℚ) (vr : VoiceRenderInputs)
    (first_sample_index last_sample_index i : ℕ)
    (buffer : (ℕ → ℚ) × (ℕ → ℚ)) (h1 : first_sample_index ≤ i)
    (h2 : i < last_sample_index) :
    (Voice_render sincos pi_quarter vr first_sample_index
        last_sample_index buffer).1 i =
      (sincos ((min 1 (max (resolved_panning vr i) (-1)) + 1) *
        pi_quarter)).2 * vr.volume_applier_buffer i ∧
    (Voice_render sincos pi_quarter vr first_sample_index
        last_sample_index buffer).2 i =
      (sincos ((min 1 (max (resolved_panning vr i) (-1)) + 1) *
        pi_quarter)).1 * vr.volume_applier_buffer i := by
  obtain ⟨pb, pv, npb, npv, vab⟩ := vr
  cases npb <;> cases pb <;>
    simp [Voice_render, resolved_panning, h1, h2]

/-- C9 witness: the pan law at a concrete all-constant input in range. -/
theorem voice_render_equal_power_pan_witness :
    (Voice_render (fun y => (y, y + 1)) 1 ⟨none, 0, none, 0, fun _ => 1⟩
        0 1 (fun _ => 0, fun _ => 0)).1 0 =
      ((fun y => (y, y + 1))
        ((min 1 (max (resolved_panning ⟨none, 0, none, 0, fun _ => 1⟩ 0)
          (-1)) + 1) * 1)).2 *
        (⟨none, 0, none, 0, fun _ => 1⟩ :
          VoiceRenderInputs).volume_applier_buffer 0 ∧
    (Voice_render (fun y => (y, y + 1)) 1 ⟨none, 0, none, 0, fun _ => 1⟩
        0 1 (fun _ => 0, fun _ => 0)).2 0 =
      ((fun y => (y, y + 1))
        ((min 1 (max (resolved_panning ⟨none, 0, none, 0, fun _ => 1⟩ 0)
          (-1)) + 1) * 1)).1 *
        (⟨none, 0, none, 0, fun _ => 1⟩ :
          VoiceRenderInputs).volume_applier_buffer 0 := by
  exact voice_render_equal_power_pan (fun y => (y, y + 1)) 1
    ⟨none, 0, none, 0, fun _ => 1⟩ 0 1 0 (fun _ => 0, fun _ => 0)
    (by norm_num) (by norm_num)


end JS80P
